import Mathlib

/-!
Verification development for the RART C backend (RustAsyncRT/rart-c):
a shallow embedding of the slot-pool and dispatch logic of
`src/zephyr/rart.c` (mutex pool, timer pool, message-queue pool) and of
the zbus observer registry (`zbus_backend.c`).

Modelling conventions:
* A pool is a `List` of slot structures; the list index plays the role of
  the C array index.  Pool capacities (`NUM_OF_TASKS`, `NUM_OF_MUTEXES`,
  `NUM_OF_MSGQ`, `NUM_OF_OBSERVERS`) come from build configuration headers
  that are not part of the sources, so every pool size is a parameter.
* The address `&self.mutexes[i].mutex` (resp. `&self.timers[i].timer`) is
  in bijection with the index `i`; a pointer is therefore modelled as a
  `Nat`, where values `< length` are slot addresses and values `≥ length`
  stand for pointers that are not the address of any slot (NULL, foreign
  pointers).  The address-comparison loops `search_mutex`/`search_timer`
  become scans of `List.range` comparing the candidate index with the
  pointer value.
* Function pointers and `void *` states are opaque; both are modelled as
  `Nat` (0 standing for NULL).  Invoking a callback is recorded as the
  event `(callback, state)` in an event list; the kernel actually calls
  the function, which is outside the embedded core.
* The fatal path `print_error(...); while (1);` (halting the process) is
  modelled as the `none` result of an `Option`-valued function.
  `rtos_mutex_new` never takes that path: its failure branch executes
  `return NULL`, modelled as `some` of a result whose handle is `none`
  and whose `diag` flag records that `print_error` ran.
* Calls to the kernel primitive `k_mutex_init` are counted in the ghost
  field `initCount` of the mutex slot; `k_msgq_init`'s effect is recorded
  as the configured `(msg_size, max_msgs)` of the queue instance.
-/

/-- Modify the element at index `i` of a list, leaving the list unchanged
when `i` is out of range (C code never takes that branch: indices come
from in-range scans). -/
def modifyAt {α : Type} (l : List α) (i : Nat) (f : α → α) : List α :=
  match l, i with
  | [], _ => []
  | x :: xs, 0 => f x :: xs
  | x :: xs, n + 1 => x :: modifyAt xs n f

/-- Index of the first element satisfying `p`, scanning from index 0
upward — the shape shared by every `search_free_*` loop of the sources.
Used only to state and prove properties of those loops. -/
def scanFirst {α : Type} (p : α → Bool) : List α → Option Nat
  | [] => none
  | x :: xs => if p x then some 0 else (scanFirst p xs).map (· + 1)

/-! ## Mutex pool (src/zephyr/rart.c) -/

/-- One element of `self.mutexes` (rart.c:68-72): the Zephyr mutex itself
is opaque, `initCount` is the ghost count of `k_mutex_init` calls on this
slot. -/
structure MutexSlot where
  is_free : Bool
  is_init : Bool
  initCount : Nat
deriving Repr, DecidableEq

/-- The static initializer of `self.mutexes` (rart.c:90-95):
`n` slots, all free and uninitialized. -/
def initMutexes (n : Nat) : List MutexSlot :=
  List.replicate n ⟨true, false, 0⟩

/-- The qualification test of `search_free_mutex` (rart.c:389):
`self.mutexes[i].is_free || !self.mutexes[i].is_init`. -/
def mutexQual (s : MutexSlot) : Bool :=
  s.is_free || !s.is_init

/-- The body of the `search_free_mutex` match arm (rart.c:390-394):
mark busy; if not yet initialized, set the flag and call `k_mutex_init`
(counted in `initCount`). -/
def claimMutexSlot (s : MutexSlot) : MutexSlot :=
  { s with
    is_free := false
    is_init := true
    initCount := if s.is_init then s.initCount else s.initCount + 1 }

/-- `search_free_mutex` (rart.c:387-401): scan from index 0 for the first
slot that is free or uninitialized, claim it, return its index; returns
`none` (INVALID_INDEX) and leaves the pool unchanged when no slot
qualifies. -/
def search_free_mutex : List MutexSlot → Option Nat × List MutexSlot
  | [] => (none, [])
  | s :: rest =>
    if mutexQual s then
      (some 0, claimMutexSlot s :: rest)
    else
      let r := search_free_mutex rest
      (r.1.map (· + 1), s :: r.2)

/-- `search_mutex` (rart.c:403-411): compare the address of each slot's
mutex with the pointer, in increasing index order.  Under the
address-as-index model, slot `i`'s address is `i`. -/
def search_mutex (n : Nat) (p : Nat) : Option Nat :=
  (List.range n).find? (fun i => i == p)

/-- Result of `rtos_mutex_new`: the handle handed to the caller
(`none` = NULL), the pool afterwards, and whether `print_error` ran. -/
structure MutexNewResult where
  handle : Option Nat
  slots : List MutexSlot
  diag : Bool
deriving Repr, DecidableEq

/-- `rtos_mutex_new` (rart.c:229-238).  The outer `Option` is the
halting convention (`none` = the process halts); this function never
halts: on exhaustion it prints "No mutex available" and returns NULL. -/
def rtos_mutex_new (slots : List MutexSlot) : Option MutexNewResult :=
  match search_free_mutex slots with
  | (none, slots') => some ⟨none, slots', true⟩
  | (some idx, slots') => some ⟨some idx, slots', false⟩

/-- `rtos_mutex_del` (rart.c:245-253): reverse-lookup the slot by the
pointer; unknown pointer is a silent no-op, otherwise set `is_free`. -/
def rtos_mutex_del (slots : List MutexSlot) (p : Nat) : List MutexSlot :=
  match search_mutex slots.length p with
  | none => slots
  | some idx => modifyAt slots idx (fun s => { s with is_free := true })

/-- A caller-visible mutex-pool operation, for stating lifetime
invariants over arbitrary operation sequences. -/
inductive MutexOp where
  | acquire : MutexOp
  | release : Nat → MutexOp
deriving Repr, DecidableEq

/-- Effect of one mutex-pool operation on the pool. -/
def mutexStep (slots : List MutexSlot) : MutexOp → List MutexSlot
  | .acquire =>
    match rtos_mutex_new slots with
    | some r => r.slots
    | none => slots
  | .release p => rtos_mutex_del slots p

/-- Run a sequence of mutex-pool operations. -/
def mutexRun (slots : List MutexSlot) (ops : List MutexOp) : List MutexSlot :=
  ops.foldl mutexStep slots

/-- Pool states in which the `free` flag is the sole source of truth:
a slot that was never constructed is still free.  Holds in every state
reachable from `initMutexes`. -/
def MutexInv (slots : List MutexSlot) : Prop :=
  ∀ s ∈ slots, s.is_init = false → s.is_free = true

/-! ## Timer pool (src/zephyr/rart.c) -/

/-- One element of `self.timers` (rart.c:82-88): the Zephyr timer itself
is opaque (its address is the slot index), `state` and `callback` are the
caller-supplied pointers. -/
structure TimerSlot where
  state : Nat
  callback : Nat
  is_free : Bool
deriving Repr, DecidableEq

/-- `self.timers` after the static initializer (rart.c:106-112) or
`rtos_timer_init` (rart.c:324-329): `n` free slots with NULL callback and
state. -/
def initTimers (n : Nat) : List TimerSlot :=
  List.replicate n ⟨0, 0, true⟩

/-- `search_free_timer` (rart.c:425-434): scan from index 0 for the
first free slot, mark it busy, return its index. -/
def search_free_timer : List TimerSlot → Option Nat × List TimerSlot
  | [] => (none, [])
  | s :: rest =>
    if s.is_free then
      (some 0, { s with is_free := false } :: rest)
    else
      let r := search_free_timer rest
      (r.1.map (· + 1), s :: r.2)

/-- `search_timer` (rart.c:377-385): compare the address of each slot's
timer with the pointer, in increasing index order. -/
def search_timer (n : Nat) (p : Nat) : Option Nat :=
  (List.range n).find? (fun i => i == p)

/-- `rtos_timer_reschedule` (rart.c:338-350): claim the first free slot,
store callback and state, arm the kernel timer (`k_timer_start` is a
kernel primitive with no effect on the pool).  `none` = the fatal
`print_error; while(1)` path on exhaustion. -/
def rtos_timer_reschedule (timers : List TimerSlot) (cb st : Nat) :
    Option (List TimerSlot) :=
  match search_free_timer timers with
  | (none, _) => none
  | (some idx, timers') =>
    some (modifyAt timers' idx (fun s => { s with callback := cb, state := st }))

/-- `default_callback` (rart.c:413-423), the shared expiry handler: the
kernel hands it the address `p` of the expired timer; reverse-lookup the
slot, invoke its callback with its state (returned as the event
`(callback, state)`), mark the slot free.  `none` = the fatal path when
the address matches no slot. -/
def default_callback (timers : List TimerSlot) (p : Nat) :
    Option (List TimerSlot × Nat × Nat) :=
  match search_timer timers.length p with
  | none => none
  | some idx =>
    match timers[idx]? with
    | none => none
    | some s =>
      some (modifyAt timers idx (fun t => { t with is_free := true }),
            s.callback, s.state)

/-- Schedule a list of (callback, state) registrations in order, each via
`rtos_timer_reschedule`. -/
def scheduleAll (timers : List TimerSlot) :
    List (Nat × Nat) → Option (List TimerSlot)
  | [] => some timers
  | (cb, st) :: rest =>
    match rtos_timer_reschedule timers cb st with
    | none => none
    | some t' => scheduleAll t' rest

/-- The kernel fires the timers whose addresses are listed in `order`,
one `default_callback` invocation each; collects the invoked
`(callback, state)` events in firing order. -/
def fireAll (timers : List TimerSlot) :
    List Nat → Option (List TimerSlot × List (Nat × Nat))
  | [] => some (timers, [])
  | p :: rest =>
    match default_callback timers p with
    | none => none
    | some (t', ev) =>
      match fireAll t' rest with
      | none => none
      | some (t'', evs) => some (t'', ev :: evs)

/-! ## Message-queue pool (src/zephyr/rart.c) -/

/-- `MSG_ITEM_SIZE` (rart.c:35): maximum size of a message item; each
backing buffer holds `NUM_OF_MSG_ITENS * MSG_ITEM_SIZE` bytes. -/
def MSG_ITEM_SIZE : Nat := 8

/-- What `k_msgq_init` configured for one element of
`self.msgq.instance` (rart.c:74-78): `none` before initialization. -/
structure MsgqInstance where
  msg_size : Option Nat
  max_msgs : Nat
deriving Repr, DecidableEq

/-- The sub-struct `self.msgq` (rart.c:73-81). -/
structure MsgqPool where
  instances : List MsgqInstance
  index : Nat
  is_init : Bool
deriving Repr, DecidableEq

/-- `self.msgq` after the static initializer (rart.c:96-105). -/
def initMsgqPool (n : Nat) : MsgqPool :=
  ⟨List.replicate n ⟨none, 0⟩, 0, false⟩

/-- `rtos_msgq_new` (rart.c:282-295): on the very first call initialize
every instance with the caller's `data_size` and capacity
`NUM_OF_MSG_ITENS` (the parameter `numItens`); return the instance at
`index` and advance `index` round-robin, wrapping at the last slot. -/
def rtos_msgq_new (numItens : Nat) (p : MsgqPool) (data_size : Nat) :
    Nat × MsgqPool :=
  let p1 := if p.is_init then p else
    { p with
      is_init := true
      instances := p.instances.map (fun _ => ⟨some data_size, numItens⟩) }
  let n := p1.instances.length
  (p1.index, { p1 with index := if n - 1 ≤ p1.index then 0 else p1.index + 1 })

/-- Run `rtos_msgq_new` once per entry of `ds` (the `data_size`
arguments), collecting the returned handles (instance indices) in call
order. -/
def msgqRun (numItens : Nat) (p : MsgqPool) : List Nat → List Nat × MsgqPool
  | [] => ([], p)
  | d :: ds =>
    let r := rtos_msgq_new numItens p d
    let rest := msgqRun numItens r.2 ds
    (r.1 :: rest.1, rest.2)

/-! ## Observer registry (zbus_backend.c) -/

/-- `INVALID_ID` (zbus_backend.c:19): `(uint32_t) -1`. -/
def INVALID_ID : Nat := 4294967295

/-- One element of `entry_list` (zbus_backend.c:43-48). -/
structure ZbusEntry where
  state : Nat
  callback : Nat
  id : Nat
  is_free : Bool
deriving Repr, DecidableEq

/-- `entry_list` after its static initializer (zbus_backend.c:53-58). -/
def initEntries (n : Nat) : List ZbusEntry :=
  List.replicate n ⟨0, 0, INVALID_ID, true⟩

/-- `search_free_entry` (zbus_backend.c:131-139): index of the first
free entry; unlike the timer/mutex scans it does not mutate the pool. -/
def search_free_entry : List ZbusEntry → Option Nat
  | [] => none
  | e :: rest =>
    if e.is_free then some 0 else (search_free_entry rest).map (· + 1)

/-- `rtos_zbus_register_observer` (zbus_backend.c:82-94): claim the
first free entry, store channel id, callback and state, mark busy.
`none` = the fatal `print_error; while(1)` path on exhaustion. -/
def rtos_zbus_register_observer (entries : List ZbusEntry)
    (cid st cb : Nat) : Option (List ZbusEntry) :=
  match search_free_entry entries with
  | none => none
  | some idx =>
    some (modifyAt entries idx (fun e =>
      { e with id := cid, callback := cb, state := st, is_free := false }))

/-- `rtos_zbus_default_listener_callback` (zbus_backend.c:113-129): read
the channel's message (a kernel operation, identical for every
callback), then scan all entries in index order; every non-free entry
whose stored id equals `cid` has its callback invoked (recorded as the
event `(callback, state)`) and is marked free. -/
def rtos_zbus_default_listener_callback :
    List ZbusEntry → Nat → List ZbusEntry × List (Nat × Nat)
  | [], _ => ([], [])
  | e :: rest, cid =>
    if e.is_free then
      let r := rtos_zbus_default_listener_callback rest cid
      (e :: r.1, r.2)
    else if e.id == cid then
      let r := rtos_zbus_default_listener_callback rest cid
      ({ e with is_free := true } :: r.1, (e.callback, e.state) :: r.2)
    else
      let r := rtos_zbus_default_listener_callback rest cid
      (e :: r.1, r.2)

/-! ## Helper lemmas: `modifyAt`, `scanFirst`, address lookup -/

theorem length_modifyAt {α : Type} (l : List α) (i : Nat) (f : α → α) :
    (modifyAt l i f).length = l.length := by
  induction l generalizing i with
  | nil => rfl
  | cons x xs ih =>
    cases i with
    | zero => simp [modifyAt]
    | succ i => simp [modifyAt, ih]

theorem getElem?_modifyAt {α : Type} (l : List α) (i j : Nat) (f : α → α) :
    (modifyAt l i f)[j]? = if i = j then (l[j]?).map f else l[j]? := by
  induction l generalizing i j with
  | nil => simp [modifyAt]
  | cons x xs ih =>
    cases i with
    | zero =>
      cases j with
      | zero => simp [modifyAt]
      | succ j => simp [modifyAt]
    | succ i =>
      cases j with
      | zero => simp [modifyAt]
      | succ j => simpa [modifyAt] using ih i j

theorem scanFirst_cons {α : Type} (p : α → Bool) (x : α) (xs : List α) :
    scanFirst p (x :: xs) = if p x then some 0 else (scanFirst p xs).map (· + 1) :=
  rfl

theorem search_free_mutex_cons (s : MutexSlot) (rest : List MutexSlot) :
    search_free_mutex (s :: rest) =
      if mutexQual s then (some 0, claimMutexSlot s :: rest)
      else ((search_free_mutex rest).1.map (· + 1), s :: (search_free_mutex rest).2) :=
  rfl

theorem search_free_timer_cons (s : TimerSlot) (rest : List TimerSlot) :
    search_free_timer (s :: rest) =
      if s.is_free then (some 0, { s with is_free := false } :: rest)
      else ((search_free_timer rest).1.map (· + 1), s :: (search_free_timer rest).2) :=
  rfl

theorem search_free_entry_cons (e : ZbusEntry) (rest : List ZbusEntry) :
    search_free_entry (e :: rest) =
      if e.is_free then some 0 else (search_free_entry rest).map (· + 1) :=
  rfl

theorem scanFirst_eq_some_iff {α : Type} (p : α → Bool) (l : List α) (i : Nat) :
    scanFirst p l = some i ↔
      (∃ s, l[i]? = some s ∧ p s = true) ∧
      (∀ j, j < i → ∀ s, l[j]? = some s → p s = false) := by
  induction l generalizing i with
  | nil => simp [scanFirst]
  | cons x xs ih =>
    cases hx : p x with
    | true =>
      rw [scanFirst_cons, if_pos hx]
      constructor
      · intro h
        obtain rfl : (0 : Nat) = i := by simpa using h
        exact ⟨⟨x, by simp, hx⟩, fun j hj => absurd hj (Nat.not_lt_zero j)⟩
      · rintro ⟨⟨s, hs, hps⟩, hmin⟩
        cases i with
        | zero => rfl
        | succ i => exact absurd (hmin 0 (Nat.succ_pos i) x (by simp)) (by simp [hx])
    | false =>
      rw [scanFirst_cons, if_neg (by simp [hx]), Option.map_eq_some']
      constructor
      · rintro ⟨i', hi', rfl⟩
        obtain ⟨⟨s, hs, hps⟩, hmin⟩ := (ih i').1 hi'
        refine ⟨⟨s, by simpa using hs, hps⟩, ?_⟩
        intro j hj t ht
        cases j with
        | zero =>
          obtain rfl : x = t := by simpa using ht
          exact hx
        | succ j =>
          exact hmin j (by omega) t (by simpa using ht)
      · rintro ⟨⟨s, hs, hps⟩, hmin⟩
        cases i with
        | zero =>
          obtain rfl : x = s := by simpa using hs
          exact absurd hps (by simp [hx])
        | succ i =>
          refine ⟨i, (ih i).2 ⟨⟨s, by simpa using hs, hps⟩, ?_⟩, rfl⟩
          intro j hj t ht
          exact hmin (j + 1) (by omega) t (by simpa using ht)

theorem scanFirst_eq_none_iff {α : Type} (p : α → Bool) (l : List α) :
    scanFirst p l = none ↔ ∀ s ∈ l, p s = false := by
  induction l with
  | nil => simp [scanFirst]
  | cons x xs ih =>
    cases hx : p x with
    | true => simp [scanFirst_cons, hx]
    | false => simp [scanFirst_cons, hx, ih]

theorem find_range_eq (n p : Nat) :
    (List.range n).find? (fun i => i == p) = if p < n then some p else none := by
  induction n with
  | zero => simp
  | succ n ih =>
    rw [List.range_succ, List.find?_append, ih]
    by_cases h : p < n
    · simp [h, Nat.lt_succ_of_lt h]
    · by_cases h2 : p = n
      · subst h2
        simp [h]
      · have h3 : ¬ p < n + 1 := by omega
        simp [h, h3]
        omega

theorem search_mutex_eq (n p : Nat) :
    search_mutex n p = if p < n then some p else none :=
  find_range_eq n p

theorem search_timer_eq (n p : Nat) :
    search_timer n p = if p < n then some p else none :=
  find_range_eq n p

theorem search_free_mutex_fst (l : List MutexSlot) :
    (search_free_mutex l).1 = scanFirst mutexQual l := by
  induction l with
  | nil => rfl
  | cons s rest ih =>
    cases h : mutexQual s with
    | true => rw [search_free_mutex_cons, if_pos h, scanFirst_cons, if_pos h]
    | false =>
      rw [search_free_mutex_cons, if_neg (by simp [h]), scanFirst_cons,
        if_neg (by simp [h])]
      exact congrArg (Option.map (· + 1)) ih

theorem search_free_mutex_snd_none (l : List MutexSlot)
    (h : (search_free_mutex l).1 = none) : (search_free_mutex l).2 = l := by
  induction l with
  | nil => rfl
  | cons s rest ih =>
    cases hq : mutexQual s with
    | true =>
      rw [search_free_mutex_cons, if_pos hq] at h
      exact absurd h (by simp)
    | false =>
      rw [search_free_mutex_cons, if_neg (by simp [hq])] at h ⊢
      replace h : (search_free_mutex rest).1.map (· + 1) = none := h
      rw [Option.map_eq_none'] at h
      show s :: (search_free_mutex rest).2 = s :: rest
      rw [ih h]

theorem search_free_mutex_snd_some (l : List MutexSlot) (i : Nat)
    (h : (search_free_mutex l).1 = some i) :
    (search_free_mutex l).2 = modifyAt l i claimMutexSlot := by
  induction l generalizing i with
  | nil => exact absurd h (by simp [search_free_mutex])
  | cons s rest ih =>
    cases hq : mutexQual s with
    | true =>
      rw [search_free_mutex_cons, if_pos hq] at h ⊢
      obtain rfl : (0 : Nat) = i := by simpa using h
      rfl
    | false =>
      rw [search_free_mutex_cons, if_neg (by simp [hq])] at h ⊢
      replace h : (search_free_mutex rest).1.map (· + 1) = some i := h
      rw [Option.map_eq_some'] at h
      obtain ⟨i', hi', rfl⟩ := h
      show s :: (search_free_mutex rest).2 = modifyAt (s :: rest) (i' + 1) claimMutexSlot
      rw [ih i' hi']
      rfl

theorem search_free_timer_fst (l : List TimerSlot) :
    (search_free_timer l).1 = scanFirst (fun s => s.is_free) l := by
  induction l with
  | nil => rfl
  | cons s rest ih =>
    cases h : s.is_free with
    | true => rw [search_free_timer_cons, if_pos h, scanFirst_cons]; simp [h]
    | false =>
      rw [search_free_timer_cons, if_neg (by simp [h]), scanFirst_cons,
        if_neg (by simp [h])]
      exact congrArg (Option.map (· + 1)) ih

theorem search_free_timer_snd_some (l : List TimerSlot) (i : Nat)
    (h : (search_free_timer l).1 = some i) :
    (search_free_timer l).2 = modifyAt l i (fun s => { s with is_free := false }) := by
  induction l generalizing i with
  | nil => exact absurd h (by simp [search_free_timer])
  | cons s rest ih =>
    cases hq : s.is_free with
    | true =>
      rw [search_free_timer_cons, if_pos hq] at h ⊢
      obtain rfl : (0 : Nat) = i := by simpa using h
      rfl
    | false =>
      rw [search_free_timer_cons, if_neg (by simp [hq])] at h ⊢
      replace h : (search_free_timer rest).1.map (· + 1) = some i := h
      rw [Option.map_eq_some'] at h
      obtain ⟨i', hi', rfl⟩ := h
      show s :: (search_free_timer rest).2 =
        modifyAt (s :: rest) (i' + 1) (fun s => { s with is_free := false })
      rw [ih i' hi']
      rfl

theorem search_free_entry_eq (l : List ZbusEntry) :
    search_free_entry l = scanFirst (fun e => e.is_free) l := by
  induction l with
  | nil => rfl
  | cons e rest ih =>
    cases h : e.is_free with
    | true => rw [search_free_entry_cons, if_pos h, scanFirst_cons]; simp [h]
    | false =>
      rw [search_free_entry_cons, if_neg (by simp [h]), scanFirst_cons,
        if_neg (by simp [h])]
      exact congrArg (Option.map (· + 1)) ih

/-! ## Exhausted mutex pool -/

theorem search_free_mutex_exhausted (slots : List MutexSlot)
    (h : ∀ s ∈ slots, s.is_free = false ∧ s.is_init = true) :
    search_free_mutex slots = (none, slots) := by
  have h1 : (search_free_mutex slots).1 = none := by
    rw [search_free_mutex_fst, scanFirst_eq_none_iff]
    intro s hs
    obtain ⟨hf, hi⟩ := h s hs
    simp [mutexQual, hf, hi]
  have h2 := search_free_mutex_snd_none slots h1
  have heta : search_free_mutex slots =
      ((search_free_mutex slots).1, (search_free_mutex slots).2) := rfl
  rw [heta, h1, h2]

/-- C4: when every one of the mutex slots is busy and initialized,
`rtos_mutex_new` emits the "No mutex available" diagnostic, returns NULL
to the caller, and leaves every slot's flags unchanged — the failure is
recoverable and caller-visible. -/
theorem mutex_exhaustion_recoverable (slots : List MutexSlot)
    (h : ∀ s ∈ slots, s.is_free = false ∧ s.is_init = true) :
    rtos_mutex_new slots = some ⟨none, slots, true⟩ := by
  rw [rtos_mutex_new, search_free_mutex_exhausted slots h]

theorem mutex_exhaustion_recoverable_witness :
    rtos_mutex_new (List.replicate 7 ⟨false, true, 1⟩) =
      some ⟨none, List.replicate 7 ⟨false, true, 1⟩, true⟩ :=
  mutex_exhaustion_recoverable (List.replicate 7 ⟨false, true, 1⟩) (by decide)

/-- C5 is false on the code: with every slot of a concrete pool busy and
initialized, `rtos_mutex_new` does not take the halting path (modelled
as the result `none`); it returns control to the caller with a NULL
handle after the diagnostic, leaving the pool unchanged
(rart.c:232-235 executes `return NULL`, not `while (1)`). -/
theorem mutex_exhaustion_halt_cex :
    rtos_mutex_new (List.replicate 7 ⟨false, true, 1⟩) ≠ none ∧
    rtos_mutex_new (List.replicate 7 ⟨false, true, 1⟩) =
      some ⟨none, List.replicate 7 ⟨false, true, 1⟩, true⟩ := by
  constructor
  · decide
  · decide

/-- C5 amended: when no mutex slot is free or uninitialized,
`rtos_mutex_new` reports the exhaustion via diagnostic output and
returns NULL to the caller — the process is not halted. -/
theorem mutex_exhaustion_reports_and_returns (slots : List MutexSlot)
    (h : ∀ s ∈ slots, s.is_free = false ∧ s.is_init = true) :
    ∃ r, rtos_mutex_new slots = some r ∧ r.handle = none ∧ r.diag = true := by
  refine ⟨⟨none, slots, true⟩, ?_, rfl, rfl⟩
  rw [rtos_mutex_new, search_free_mutex_exhausted slots h]

theorem mutex_exhaustion_reports_and_returns_witness :
    ∃ r, rtos_mutex_new (List.replicate 14 ⟨false, true, 1⟩) = some r ∧
      r.handle = none ∧ r.diag = true :=
  mutex_exhaustion_reports_and_returns (List.replicate 14 ⟨false, true, 1⟩) (by decide)

/-- C7: `rtos_mutex_del` on a pointer that is not the address of any
mutex slot (modelled as an index outside the pool) is a silent no-op;
on a slot address it sets only that slot's `is_free` flag to true,
leaves `is_init` (and the construction count) of that slot alone, and
leaves every other slot untouched. -/
theorem mutex_del_unknown_silent_noop (slots : List MutexSlot) (p : Nat) :
    (slots.length ≤ p → rtos_mutex_del slots p = slots) ∧
    (p < slots.length →
      ((rtos_mutex_del slots p)[p]?).map MutexSlot.is_free = some true ∧
      ((rtos_mutex_del slots p)[p]?).map MutexSlot.is_init =
        (slots[p]?).map MutexSlot.is_init ∧
      ((rtos_mutex_del slots p)[p]?).map MutexSlot.initCount =
        (slots[p]?).map MutexSlot.initCount ∧
      ∀ j, j ≠ p → (rtos_mutex_del slots p)[j]? = slots[j]?) := by
  constructor
  · intro hp
    rw [rtos_mutex_del, search_mutex_eq, if_neg (by omega)]
  · intro hp
    have hdel : rtos_mutex_del slots p =
        modifyAt slots p (fun s => { s with is_free := true }) := by
      rw [rtos_mutex_del, search_mutex_eq, if_pos hp]
    obtain ⟨s, hs⟩ : ∃ s, slots[p]? = some s := by
      rw [List.getElem?_eq_getElem hp]
      exact ⟨_, rfl⟩
    refine ⟨?_, ?_, ?_, ?_⟩
    · simp [hdel, getElem?_modifyAt, hs]
    · simp [hdel, getElem?_modifyAt, hs]
    · simp [hdel, getElem?_modifyAt, hs]
    · intro j hj
      rw [hdel, getElem?_modifyAt, if_neg (fun e => hj e.symm)]

/-- C9: each free-slot scan (`search_free_mutex`, `search_free_timer`,
`search_free_entry`) scans from index 0 upward and returns index `i`
exactly when slot `i` qualifies and no smaller index does — allocation
is deterministic and always prefers the lowest qualifying index. -/
theorem lowest_index_allocation :
    (∀ (l : List MutexSlot) (i : Nat),
      (search_free_mutex l).1 = some i ↔
        (∃ s, l[i]? = some s ∧ (s.is_free || !s.is_init) = true) ∧
        (∀ j, j < i → ∀ s, l[j]? = some s → (s.is_free || !s.is_init) = false)) ∧
    (∀ (l : List TimerSlot) (i : Nat),
      (search_free_timer l).1 = some i ↔
        (∃ s, l[i]? = some s ∧ s.is_free = true) ∧
        (∀ j, j < i → ∀ s, l[j]? = some s → s.is_free = false)) ∧
    (∀ (l : List ZbusEntry) (i : Nat),
      search_free_entry l = some i ↔
        (∃ s, l[i]? = some s ∧ s.is_free = true) ∧
        (∀ j, j < i → ∀ s, l[j]? = some s → s.is_free = false)) := by
  refine ⟨fun l i => ?_, fun l i => ?_, fun l i => ?_⟩
  · rw [search_free_mutex_fst]
    exact scanFirst_eq_some_iff mutexQual l i
  · rw [search_free_timer_fst]
    exact scanFirst_eq_some_iff (fun s => s.is_free) l i
  · rw [search_free_entry_eq]
    exact scanFirst_eq_some_iff (fun e => e.is_free) l i

/-! ## Observer dispatch -/

theorem listener_cons (e : ZbusEntry) (rest : List ZbusEntry) (cid : Nat) :
    rtos_zbus_default_listener_callback (e :: rest) cid =
      if e.is_free then
        (e :: (rtos_zbus_default_listener_callback rest cid).1,
         (rtos_zbus_default_listener_callback rest cid).2)
      else if e.id == cid then
        ({ e with is_free := true } :: (rtos_zbus_default_listener_callback rest cid).1,
         (e.callback, e.state) :: (rtos_zbus_default_listener_callback rest cid).2)
      else
        (e :: (rtos_zbus_default_listener_callback rest cid).1,
         (rtos_zbus_default_listener_callback rest cid).2) :=
  rfl

theorem listener_all_free (l : List ZbusEntry) (cid : Nat)
    (h : ∀ e ∈ l, e.is_free = true) :
    rtos_zbus_default_listener_callback l cid = (l, []) := by
  induction l with
  | nil => rfl
  | cons e rest ih =>
    have he : e.is_free = true := h e (by simp)
    rw [listener_cons, if_pos he, ih (fun x hx => h x (by simp [hx]))]

theorem initEntries_all_free (n : Nat) : ∀ e ∈ initEntries n, e.is_free = true := by
  intro e he
  have := List.eq_of_mem_replicate (by simpa [initEntries] using he)
  rw [this]

/-- C2: from a fresh registry with at least two slots, two registrations
on the same channel id land in slots 0 and 1; one dispatch for that id
invokes both stored callbacks, each exactly once with its own stored
state (events listed in slot order), and frees both slots; a second
dispatch with no intervening registration invokes no callback and
changes no slot. -/
theorem observer_notify_all_then_clear (N cid st₁ cb₁ st₂ cb₂ : Nat) (hN : 2 ≤ N) :
    ∃ es₁ es₂,
      rtos_zbus_register_observer (initEntries N) cid st₁ cb₁ = some es₁ ∧
      rtos_zbus_register_observer es₁ cid st₂ cb₂ = some es₂ ∧
      (rtos_zbus_default_listener_callback es₂ cid).2 = [(cb₁, st₁), (cb₂, st₂)] ∧
      (∀ i, i < 2 →
        (((rtos_zbus_default_listener_callback es₂ cid).1)[i]?).map ZbusEntry.is_free =
          some true) ∧
      rtos_zbus_default_listener_callback
          (rtos_zbus_default_listener_callback es₂ cid).1 cid =
        ((rtos_zbus_default_listener_callback es₂ cid).1, []) := by
  obtain ⟨n, rfl⟩ : ∃ n, N = n + 2 := ⟨N - 2, by omega⟩
  have hfree := initEntries_all_free n
  have hdisp : rtos_zbus_default_listener_callback
      (⟨st₁, cb₁, cid, false⟩ :: ⟨st₂, cb₂, cid, false⟩ :: initEntries n) cid =
      (⟨st₁, cb₁, cid, true⟩ :: ⟨st₂, cb₂, cid, true⟩ :: initEntries n,
       [(cb₁, st₁), (cb₂, st₂)]) := by
    rw [listener_cons, if_neg (by simp), if_pos (by simp),
        listener_cons, if_neg (by simp), if_pos (by simp),
        listener_all_free (initEntries n) cid hfree]
  refine ⟨⟨st₁, cb₁, cid, false⟩ :: initEntries (n + 1),
          ⟨st₁, cb₁, cid, false⟩ :: ⟨st₂, cb₂, cid, false⟩ :: initEntries n,
          rfl, rfl, ?_, ?_, ?_⟩
  · rw [hdisp]
  · intro i hi
    rw [hdisp]
    match i, hi with
    | 0, _ => simp
    | 1, _ => simp
  · rw [hdisp]
    apply listener_all_free
    intro e he
    simp only [List.mem_cons] at he
    rcases he with rfl | rfl | he
    · rfl
    · rfl
    · exact hfree e he

theorem observer_notify_all_then_clear_witness :
    ∃ es₁ es₂,
      rtos_zbus_register_observer (initEntries 2) 7 10 1 = some es₁ ∧
      rtos_zbus_register_observer es₁ 7 20 2 = some es₂ ∧
      (rtos_zbus_default_listener_callback es₂ 7).2 = [(1, 10), (2, 20)] ∧
      (∀ i, i < 2 →
        (((rtos_zbus_default_listener_callback es₂ 7).1)[i]?).map ZbusEntry.is_free =
          some true) ∧
      rtos_zbus_default_listener_callback
          (rtos_zbus_default_listener_callback es₂ 7).1 7 =
        ((rtos_zbus_default_listener_callback es₂ 7).1, []) :=
  observer_notify_all_then_clear 2 7 10 1 20 2 (by decide)

/-! ## Message-queue pool: round-robin -/

theorem msgqRun_cons (I : Nat) (p : MsgqPool) (d : Nat) (ds : List Nat) :
    msgqRun I p (d :: ds) =
      ((rtos_msgq_new I p d).1 :: (msgqRun I (rtos_msgq_new I p d).2 ds).1,
       (msgqRun I (rtos_msgq_new I p d).2 ds).2) :=
  rfl

theorem wrap_eq_mod (M j : Nat) (hj : j < M) :
    (if M - 1 ≤ j then 0 else j + 1) = (j + 1) % M := by
  by_cases h : M - 1 ≤ j
  · rw [if_pos h]
    have hjM : j + 1 = M := by omega
    rw [hjM, Nat.mod_self]
  · rw [if_neg h, Nat.mod_eq_of_lt (by omega)]

theorem msgq_new_inited (I M j d : Nat) (c : MsgqInstance) (hj : j < M) :
    rtos_msgq_new I ⟨List.replicate M c, j, true⟩ d =
      (j, ⟨List.replicate M c, (j + 1) % M, true⟩) := by
  have h1 : rtos_msgq_new I ⟨List.replicate M c, j, true⟩ d =
      (j, ⟨List.replicate M c,
           if (List.replicate M c).length - 1 ≤ j then 0 else j + 1, true⟩) := rfl
  rw [h1, List.length_replicate, wrap_eq_mod M j hj]

theorem msgq_new_first (I M d : Nat) (hM : 1 ≤ M) :
    rtos_msgq_new I (initMsgqPool M) d =
      (0, ⟨List.replicate M ⟨some d, I⟩, 1 % M, true⟩) := by
  have h1 : rtos_msgq_new I (initMsgqPool M) d =
      (0, ⟨(List.replicate M (⟨none, 0⟩ : MsgqInstance)).map (fun _ => ⟨some d, I⟩),
           if ((List.replicate M (⟨none, 0⟩ : MsgqInstance)).map
                (fun _ => (⟨some d, I⟩ : MsgqInstance))).length - 1 ≤ 0
           then 0 else 0 + 1, true⟩) := rfl
  rw [h1, List.map_replicate, List.length_replicate, wrap_eq_mod M 0 (by omega)]

theorem msgqRun_inited (I M : Nat) (c : MsgqInstance) (ds : List Nat) (j : Nat)
    (hj : j < M) :
    msgqRun I ⟨List.replicate M c, j, true⟩ ds =
      ((List.range ds.length).map (fun k => (j + k) % M),
       ⟨List.replicate M c, (j + ds.length) % M, true⟩) := by
  induction ds generalizing j with
  | nil => simp [msgqRun, Nat.mod_eq_of_lt hj]
  | cons d ds ih =>
    have hj1 : (j + 1) % M < M := Nat.mod_lt _ (by omega)
    rw [msgqRun_cons, msgq_new_inited I M j d c hj, ih ((j + 1) % M) hj1]
    simp only [List.length_cons, Prod.mk.injEq, MsgqPool.mk.injEq, true_and, and_true]
    constructor
    · rw [List.range_succ_eq_map, List.map_cons, List.map_map]
      congr 1
      · rw [Nat.add_zero, Nat.mod_eq_of_lt hj]
      · congr 1
        funext k
        simp only [Function.comp]
        rw [Nat.mod_add_mod]
        congr 1
        omega
    · rw [Nat.mod_add_mod]
      congr 1
      omega

/-- C8: starting from the fresh pool, the i-th `rtos_msgq_new` call
(0-based) returns the instance at index `i % M` where `M` is the pool
size, so the handle at call `i` equals the handle at call `i + M`,
wrapping from `M - 1` back to 0; only the first call initializes the
queues (with its `data_size`), and the `data_size` of every subsequent
call has no effect on the final pool state. -/
theorem msgq_round_robin (M I d : Nat) (ds : List Nat) (hM : 1 ≤ M) :
    (∀ i, i < ds.length + 1 →
      ((msgqRun I (initMsgqPool M) (d :: ds)).1)[i]? = some (i % M)) ∧
    (∀ i, i + M < ds.length + 1 →
      ((msgqRun I (initMsgqPool M) (d :: ds)).1)[i]? =
        ((msgqRun I (initMsgqPool M) (d :: ds)).1)[i + M]?) ∧
    (msgqRun I (initMsgqPool M) (d :: ds)).2 =
      ⟨List.replicate M ⟨some d, I⟩, (ds.length + 1) % M, true⟩ := by
  have hrun : msgqRun I (initMsgqPool M) (d :: ds) =
      (0 :: (List.range ds.length).map (fun k => (1 % M + k) % M),
       ⟨List.replicate M ⟨some d, I⟩, (1 % M + ds.length) % M, true⟩) := by
    rw [msgqRun_cons, msgq_new_first I M d hM,
        msgqRun_inited I M ⟨some d, I⟩ ds (1 % M) (Nat.mod_lt _ (by omega))]
  have hlist : (msgqRun I (initMsgqPool M) (d :: ds)).1 =
      (List.range (ds.length + 1)).map (· % M) := by
    rw [hrun]
    show 0 :: (List.range ds.length).map (fun k => (1 % M + k) % M) =
      (List.range (ds.length + 1)).map (· % M)
    rw [List.range_succ_eq_map, List.map_cons, List.map_map, Nat.zero_mod]
    have hfg : (fun k => (1 % M + k) % M) = ((fun x => x % M) ∘ Nat.succ) := by
      funext k
      simp only [Function.comp]
      rw [Nat.mod_add_mod]
      congr 1
      omega
    rw [hfg]
  refine ⟨?_, ?_, ?_⟩
  · intro i hi
    rw [hlist, List.getElem?_map, List.getElem?_range (by simpa using hi)]
    rfl
  · intro i hi
    rw [hlist, List.getElem?_map, List.getElem?_map,
        List.getElem?_range (by omega), List.getElem?_range (by omega)]
    simp [Nat.add_mod_right]
  · rw [hrun]
    simp only [MsgqPool.mk.injEq, true_and, and_true]
    rw [Nat.mod_add_mod]
    congr 1
    omega

theorem msgq_round_robin_witness :
    (∀ i, i < [6, 7].length + 1 →
      ((msgqRun 8 (initMsgqPool 2) (5 :: [6, 7])).1)[i]? = some (i % 2)) ∧
    (∀ i, i + 2 < [6, 7].length + 1 →
      ((msgqRun 8 (initMsgqPool 2) (5 :: [6, 7])).1)[i]? =
        ((msgqRun 8 (initMsgqPool 2) (5 :: [6, 7])).1)[i + 2]?) ∧
    (msgqRun 8 (initMsgqPool 2) (5 :: [6, 7])).2 =
      ⟨List.replicate 2 ⟨some 5, 8⟩, ([6, 7].length + 1) % 2, true⟩ :=
  msgq_round_robin 2 8 5 [6, 7] (by decide)

/-- C10: the first `rtos_msgq_new(d)` call configures every one of the
`4*T` queue instances with item size `d` and capacity
`NUM_OF_MSG_ITENS = 4*T` items, whatever `d` is — the interface checks
nothing; each backing buffer holds `NUM_OF_MSG_ITENS * MSG_ITEM_SIZE`
bytes, and the configured storage fits inside the buffer iff
`d ≤ MSG_ITEM_SIZE = 8`. -/
theorem msgq_item_size_precondition (T d : Nat) (hT : 0 < T) :
    ((rtos_msgq_new (4 * T) (initMsgqPool (4 * T)) d).2.instances =
      List.replicate (4 * T) ⟨some d, 4 * T⟩) ∧
    (d * (4 * T) ≤ (4 * T) * MSG_ITEM_SIZE ↔ d ≤ 8) := by
  constructor
  · rw [msgq_new_first (4 * T) (4 * T) d (by omega)]
  · constructor
    · intro h
      have h' : d * (4 * T) ≤ 8 * (4 * T) := by
        calc d * (4 * T) ≤ (4 * T) * MSG_ITEM_SIZE := h
        _ = 8 * (4 * T) := by rw [MSG_ITEM_SIZE]; ring
      exact Nat.le_of_mul_le_mul_right h' (by omega)
    · intro h
      calc d * (4 * T) ≤ 8 * (4 * T) := Nat.mul_le_mul_right _ h
      _ = (4 * T) * MSG_ITEM_SIZE := by rw [MSG_ITEM_SIZE]; ring

theorem msgq_item_size_precondition_witness :
    ((rtos_msgq_new (4 * 1) (initMsgqPool (4 * 1)) 9).2.instances =
      List.replicate (4 * 1) ⟨some 9, 4 * 1⟩) ∧
    (9 * (4 * 1) ≤ (4 * 1) * MSG_ITEM_SIZE ↔ 9 ≤ 8) :=
  msgq_item_size_precondition 1 9 (by decide)

/-! ## Mutex pool lifetime invariants -/

theorem modifyAt_cons_zero {α : Type} (x : α) (xs : List α) (f : α → α) :
    modifyAt (x :: xs) 0 f = f x :: xs :=
  rfl

theorem modifyAt_cons_succ {α : Type} (x : α) (xs : List α) (i : Nat) (f : α → α) :
    modifyAt (x :: xs) (i + 1) f = x :: modifyAt xs i f :=
  rfl

theorem modifyAt_forall {α : Type} {P : α → Prop} (l : List α) (i : Nat) (f : α → α)
    (hl : ∀ s ∈ l, P s) (hf : ∀ s, P s → P (f s)) :
    ∀ s ∈ modifyAt l i f, P s := by
  induction l generalizing i with
  | nil =>
    intro s hs
    exact absurd hs (by simp [modifyAt])
  | cons x xs ih =>
    cases i with
    | zero =>
      intro s hs
      rw [modifyAt_cons_zero] at hs
      rcases List.mem_cons.mp hs with rfl | hs
      · exact hf x (hl x (by simp))
      · exact hl s (by simp [hs])
    | succ i =>
      intro s hs
      rw [modifyAt_cons_succ] at hs
      rcases List.mem_cons.mp hs with rfl | hs
      · exact hl s (by simp)
      · exact ih i (fun t ht => hl t (by simp [ht])) s hs

/-- The per-slot invariant maintained by every reachable mutex-pool
state: an unconstructed slot is free, and `k_mutex_init` ran at most
once on the slot (never, if it is still unconstructed). -/
def MutexSlotOk (s : MutexSlot) : Prop :=
  (s.is_init = false → s.is_free = true) ∧
  s.initCount ≤ 1 ∧ (s.is_init = false → s.initCount = 0)

def MutexPoolOk (slots : List MutexSlot) : Prop :=
  ∀ s ∈ slots, MutexSlotOk s

theorem claimMutexSlot_ok (s : MutexSlot) (h : MutexSlotOk s) :
    MutexSlotOk (claimMutexSlot s) := by
  obtain ⟨h1, h2, h3⟩ := h
  cases hinit : s.is_init with
  | true => simp [claimMutexSlot, MutexSlotOk, hinit, h2]
  | false =>
    have hc := h3 hinit
    simp [claimMutexSlot, MutexSlotOk, hinit, hc]

theorem setFree_ok (s : MutexSlot) (h : MutexSlotOk s) :
    MutexSlotOk { s with is_free := true } := by
  obtain ⟨h1, h2, h3⟩ := h
  exact ⟨fun _ => rfl, h2, h3⟩

theorem mutexStep_ok (slots : List MutexSlot) (op : MutexOp)
    (h : MutexPoolOk slots) : MutexPoolOk (mutexStep slots op) := by
  cases op with
  | acquire =>
    cases hs : (search_free_mutex slots).1 with
    | none =>
      have hsnd := search_free_mutex_snd_none slots hs
      have hstep : mutexStep slots .acquire = slots := by
        show (match rtos_mutex_new slots with | some r => r.slots | none => slots) = slots
        rw [rtos_mutex_new]
        have heta : search_free_mutex slots =
            ((search_free_mutex slots).1, (search_free_mutex slots).2) := rfl
        rw [heta, hs, hsnd]
      rw [hstep]
      exact h
    | some i =>
      have hsnd := search_free_mutex_snd_some slots i hs
      have hstep : mutexStep slots .acquire = modifyAt slots i claimMutexSlot := by
        show (match rtos_mutex_new slots with | some r => r.slots | none => slots) =
          modifyAt slots i claimMutexSlot
        rw [rtos_mutex_new]
        have heta : search_free_mutex slots =
            ((search_free_mutex slots).1, (search_free_mutex slots).2) := rfl
        rw [heta, hs, hsnd]
      rw [hstep]
      exact modifyAt_forall slots i claimMutexSlot h claimMutexSlot_ok
  | release p =>
    show MutexPoolOk (rtos_mutex_del slots p)
    cases hm : search_mutex slots.length p with
    | none =>
      have : rtos_mutex_del slots p = slots := by rw [rtos_mutex_del, hm]
      rw [this]
      exact h
    | some idx =>
      have : rtos_mutex_del slots p =
          modifyAt slots idx (fun s => { s with is_free := true }) := by
        rw [rtos_mutex_del, hm]
      rw [this]
      exact modifyAt_forall slots idx _ h setFree_ok

theorem mutexRun_ok (slots : List MutexSlot) (ops : List MutexOp)
    (h : MutexPoolOk slots) : MutexPoolOk (mutexRun slots ops) := by
  induction ops generalizing slots with
  | nil => exact h
  | cons op ops ih =>
    show MutexPoolOk (mutexRun (mutexStep slots op) ops)
    exact ih _ (mutexStep_ok slots op h)

theorem initMutexes_ok (N : Nat) : MutexPoolOk (initMutexes N) := by
  intro s hs
  have := List.eq_of_mem_replicate (by simpa [initMutexes] using hs)
  rw [this]
  exact ⟨fun _ => rfl, Nat.zero_le 1, fun _ => rfl⟩

/-- C6: in every state reached from the fresh pool by any sequence of
acquire/release operations, `k_mutex_init` ran at most once per slot;
and the sequence acquire, release(handle), acquire hands out slot 0
again, finds its `is_init` flag already true, and does not construct
the primitive a second time (construction count stays 1). -/
theorem mutex_construct_once (N : Nat) (ops : List MutexOp) (hN : 1 ≤ N) :
    (∀ s ∈ mutexRun (initMutexes N) ops, s.initCount ≤ 1) ∧
    (∃ r₁ r₂,
      rtos_mutex_new (initMutexes N) = some r₁ ∧
      r₁.handle = some 0 ∧
      rtos_mutex_new (rtos_mutex_del r₁.slots 0) = some r₂ ∧
      r₂.handle = some 0 ∧
      ((rtos_mutex_del r₁.slots 0)[0]?).map MutexSlot.is_init = some true ∧
      (r₂.slots[0]?).map MutexSlot.initCount = some 1 ∧
      (r₂.slots[0]?).map MutexSlot.is_init = some true) := by
  obtain ⟨m, rfl⟩ : ∃ m, N = m + 1 := ⟨N - 1, by omega⟩
  constructor
  · intro s hs
    exact ((mutexRun_ok _ ops (initMutexes_ok (m + 1))) s hs).2.1
  · have hdel : rtos_mutex_del (⟨false, true, 1⟩ :: initMutexes m) 0 =
        ⟨true, true, 1⟩ :: initMutexes m := by
      rw [rtos_mutex_del, search_mutex_eq, if_pos (by simp)]
      rfl
    refine ⟨⟨some 0, ⟨false, true, 1⟩ :: initMutexes m, false⟩,
            ⟨some 0, ⟨false, true, 1⟩ :: initMutexes m, false⟩,
            rfl, rfl, ?_, rfl, ?_, ?_, ?_⟩
    · show rtos_mutex_new (rtos_mutex_del (⟨false, true, 1⟩ :: initMutexes m) 0) =
        some ⟨some 0, ⟨false, true, 1⟩ :: initMutexes m, false⟩
      rw [hdel]
      rfl
    · show ((rtos_mutex_del (⟨false, true, 1⟩ :: initMutexes m) 0)[0]?).map
        MutexSlot.is_init = some true
      rw [hdel]
      simp
    · simp
    · simp

theorem mutex_construct_once_witness :
    (∀ s ∈ mutexRun (initMutexes 1)
        [MutexOp.acquire, MutexOp.release 0, MutexOp.acquire], s.initCount ≤ 1) ∧
    (∃ r₁ r₂,
      rtos_mutex_new (initMutexes 1) = some r₁ ∧
      r₁.handle = some 0 ∧
      rtos_mutex_new (rtos_mutex_del r₁.slots 0) = some r₂ ∧
      r₂.handle = some 0 ∧
      ((rtos_mutex_del r₁.slots 0)[0]?).map MutexSlot.is_init = some true ∧
      (r₂.slots[0]?).map MutexSlot.initCount = some 1 ∧
      (r₂.slots[0]?).map MutexSlot.is_init = some true) :=
  mutex_construct_once 1 [MutexOp.acquire, MutexOp.release 0, MutexOp.acquire]
    (by decide)

/-! ## Acquire claims a free slot -/

theorem rtos_mutex_new_some_handle (slots : List MutexSlot) (r : MutexNewResult)
    (i : Nat) (hnew : rtos_mutex_new slots = some r) (hh : r.handle = some i) :
    (search_free_mutex slots).1 = some i ∧
    r.slots = modifyAt slots i claimMutexSlot := by
  cases hs : (search_free_mutex slots).1 with
  | none =>
    have hsnd := search_free_mutex_snd_none slots hs
    have hval : rtos_mutex_new slots = some ⟨none, slots, true⟩ := by
      rw [rtos_mutex_new]
      have heta : search_free_mutex slots =
          ((search_free_mutex slots).1, (search_free_mutex slots).2) := rfl
      rw [heta, hs, hsnd]
    rw [hval] at hnew
    obtain rfl : (⟨none, slots, true⟩ : MutexNewResult) = r := by
      injection hnew
    simp at hh
  | some i' =>
    have hsnd := search_free_mutex_snd_some slots i' hs
    have hval : rtos_mutex_new slots =
        some ⟨some i', modifyAt slots i' claimMutexSlot, false⟩ := by
      rw [rtos_mutex_new]
      have heta : search_free_mutex slots =
          ((search_free_mutex slots).1, (search_free_mutex slots).2) := rfl
      rw [heta, hs, hsnd]
    rw [hval] at hnew
    obtain rfl : (⟨some i', modifyAt slots i' claimMutexSlot, false⟩ : MutexNewResult) = r := by
      injection hnew
    obtain rfl : i' = i := by simpa using hh
    exact ⟨rfl, rfl⟩

theorem mutex_claim_free (slots : List MutexSlot) (i : Nat)
    (hinv : MutexInv slots) (hs : (search_free_mutex slots).1 = some i) :
    (slots[i]?).map MutexSlot.is_free = some true ∧
    ((modifyAt slots i claimMutexSlot)[i]?).map MutexSlot.is_free = some false ∧
    MutexInv (modifyAt slots i claimMutexSlot) := by
  rw [search_free_mutex_fst] at hs
  obtain ⟨⟨s, hsi, hq⟩, hmin⟩ := (scanFirst_eq_some_iff mutexQual slots i).1 hs
  have hfree : s.is_free = true := by
    cases hf : s.is_free with
    | true => rfl
    | false =>
      have hni : s.is_init = false := by
        rw [mutexQual, hf] at hq
        simpa using hq
      exact absurd (hinv s (List.getElem?_mem hsi) hni) (by simp [hf])
  refine ⟨by rw [hsi]; simp [hfree], ?_, ?_⟩
  · rw [getElem?_modifyAt, if_pos rfl, hsi]
    simp [claimMutexSlot]
  · exact modifyAt_forall slots i claimMutexSlot hinv
      (fun t ht hinit => by simp [claimMutexSlot] at hinit)

theorem timer_claim_free (ts : List TimerSlot) (i : Nat) (ts' : List TimerSlot)
    (h : search_free_timer ts = (some i, ts')) :
    (ts[i]?).map TimerSlot.is_free = some true ∧
    (ts'[i]?).map TimerSlot.is_free = some false := by
  have h1 : (search_free_timer ts).1 = some i := by rw [h]
  have h2 : ts' = modifyAt ts i (fun s => { s with is_free := false }) := by
    have := search_free_timer_snd_some ts i h1
    rw [h] at this
    exact this
  rw [search_free_timer_fst] at h1
  obtain ⟨⟨s, hsi, hq⟩, hmin⟩ := (scanFirst_eq_some_iff _ ts i).1 h1
  constructor
  · rw [hsi]
    simpa using hq
  · rw [h2, getElem?_modifyAt, if_pos rfl, hsi]
    simp

theorem entry_register_spec (es : List ZbusEntry) (cid st cb : Nat)
    (es' : List ZbusEntry) (i : Nat)
    (hreg : rtos_zbus_register_observer es cid st cb = some es')
    (hs : search_free_entry es = some i) :
    (es[i]?).map ZbusEntry.is_free = some true ∧
    (es'[i]?).map ZbusEntry.is_free = some false := by
  have hes' : es' = modifyAt es i (fun e =>
      { e with id := cid, callback := cb, state := st, is_free := false }) := by
    rw [rtos_zbus_register_observer, hs] at hreg
    injection hreg with h
    exact h.symm
  rw [search_free_entry_eq] at hs
  obtain ⟨⟨s, hsi, hq⟩, hmin⟩ := (scanFirst_eq_some_iff _ es i).1 hs
  constructor
  · rw [hsi]
    simpa using hq
  · rw [hes', getElem?_modifyAt, if_pos rfl, hsi]
    simp

/-- C3: every successful acquire — `rtos_mutex_new` (in a reachable pool
state, i.e. one satisfying `MutexInv`), `search_free_timer` as called by
`rtos_timer_reschedule`, and `rtos_zbus_register_observer` — claims a
slot whose free flag was true and leaves it false, so a second acquire
with no intervening release/dispatch returns a distinct slot; an acquire
never hands out a slot still held by another owner. -/
theorem no_busy_slot_aliasing :
    (∀ (slots : List MutexSlot) (r₁ : MutexNewResult) (i : Nat),
      MutexInv slots → rtos_mutex_new slots = some r₁ → r₁.handle = some i →
        (slots[i]?).map MutexSlot.is_free = some true ∧
        (r₁.slots[i]?).map MutexSlot.is_free = some false ∧
        (∀ (r₂ : MutexNewResult) (j : Nat),
          rtos_mutex_new r₁.slots = some r₂ → r₂.handle = some j → j ≠ i)) ∧
    (∀ (ts ts' : List TimerSlot) (i : Nat),
      search_free_timer ts = (some i, ts') →
        (ts[i]?).map TimerSlot.is_free = some true ∧
        (ts'[i]?).map TimerSlot.is_free = some false ∧
        (∀ (ts'' : List TimerSlot) (j : Nat),
          search_free_timer ts' = (some j, ts'') → j ≠ i)) ∧
    (∀ (es es' : List ZbusEntry) (cid st cb i : Nat),
      rtos_zbus_register_observer es cid st cb = some es' →
      search_free_entry es = some i →
        (es[i]?).map ZbusEntry.is_free = some true ∧
        (es'[i]?).map ZbusEntry.is_free = some false ∧
        (∀ j, search_free_entry es' = some j → j ≠ i)) := by
  refine ⟨?_, ?_, ?_⟩
  · intro slots r₁ i hinv hnew hh
    obtain ⟨hs₁, hsl₁⟩ := rtos_mutex_new_some_handle slots r₁ i hnew hh
    obtain ⟨hold, hbusy, hinv'⟩ := mutex_claim_free slots i hinv hs₁
    rw [← hsl₁] at hbusy hinv'
    refine ⟨hold, hbusy, ?_⟩
    intro r₂ j hnew₂ hh₂ hji
    obtain ⟨hs₂, hsl₂⟩ := rtos_mutex_new_some_handle r₁.slots r₂ j hnew₂ hh₂
    obtain ⟨hold₂, _, _⟩ := mutex_claim_free r₁.slots j hinv' hs₂
    rw [hji, hbusy] at hold₂
    simp at hold₂
  · intro ts ts' i hsearch
    obtain ⟨hold, hbusy⟩ := timer_claim_free ts i ts' hsearch
    refine ⟨hold, hbusy, ?_⟩
    intro ts'' j hsearch₂ hji
    obtain ⟨hold₂, _⟩ := timer_claim_free ts' j ts'' hsearch₂
    rw [hji, hbusy] at hold₂
    simp at hold₂
  · intro es es' cid st cb i hreg hsearch
    obtain ⟨hold, hbusy⟩ := entry_register_spec es cid st cb es' i hreg hsearch
    refine ⟨hold, hbusy, ?_⟩
    intro j hsearch₂ hji
    rw [search_free_entry_eq] at hsearch₂
    obtain ⟨⟨s, hsj, hq⟩, _⟩ := (scanFirst_eq_some_iff _ es' j).1 hsearch₂
    rw [hji] at hsj
    rw [hsj] at hbusy
    simp at hbusy
    simp [hbusy] at hq

/-! ## Timer pool: exactly-once dispatch -/

/-- The timer slots produced by scheduling the registrations `regs`
(callback, state pairs) in order into fresh slots. -/
def regsToSlots (regs : List (Nat × Nat)) : List TimerSlot :=
  regs.map (fun r => ⟨r.2, r.1, false⟩)

/-- The effect of one `default_callback` firing on the pool: slot `p`
is marked free, everything else untouched. -/
def markFreeAt (ts : List TimerSlot) (p : Nat) : List TimerSlot :=
  modifyAt ts p (fun t => { t with is_free := true })

/-- The `(callback, state)` event a firing of slot `p` produces. -/
def evAt (ts : List TimerSlot) (p : Nat) : Nat × Nat :=
  ((ts[p]?).map (fun s => (s.callback, s.state))).getD (0, 0)

theorem modifyAt_append_length {α : Type} (l1 : List α) (x : α) (l2 : List α)
    (f : α → α) : modifyAt (l1 ++ x :: l2) l1.length f = l1 ++ f x :: l2 := by
  induction l1 with
  | nil => rfl
  | cons a l1 ih =>
    rw [List.cons_append, List.length_cons, modifyAt_cons_succ, ih, List.cons_append]

theorem search_free_timer_append_busy (busy : List TimerSlot) (t : TimerSlot)
    (rest : List TimerSlot) (hb : ∀ s ∈ busy, s.is_free = false)
    (ht : t.is_free = true) :
    search_free_timer (busy ++ t :: rest) =
      (some busy.length, busy ++ { t with is_free := false } :: rest) := by
  induction busy with
  | nil =>
    rw [List.nil_append, search_free_timer_cons, if_pos ht]
    rfl
  | cons b bs ih =>
    have hbfree : b.is_free = false := hb b (by simp)
    rw [List.cons_append, search_free_timer_cons, if_neg (by simp [hbfree]),
        ih (fun s hs => hb s (by simp [hs]))]
    rfl

theorem reschedule_append (busy : List TimerSlot) (t : TimerSlot)
    (rest : List TimerSlot) (cb st : Nat) (hb : ∀ s ∈ busy, s.is_free = false)
    (ht : t.is_free = true) :
    rtos_timer_reschedule (busy ++ t :: rest) cb st =
      some (busy ++ ⟨st, cb, false⟩ :: rest) := by
  rw [rtos_timer_reschedule, search_free_timer_append_busy busy t rest hb ht]
  show some (modifyAt (busy ++ { t with is_free := false } :: rest) busy.length
    (fun s => { s with callback := cb, state := st })) = _
  rw [modifyAt_append_length]

theorem scheduleAll_spec (regs : List (Nat × Nat)) (busy : List TimerSlot) (m : Nat)
    (hb : ∀ s ∈ busy, s.is_free = false) (hK : regs.length ≤ m) :
    scheduleAll (busy ++ initTimers m) regs =
      some (busy ++ regsToSlots regs ++ initTimers (m - regs.length)) := by
  induction regs generalizing busy m with
  | nil =>
    simp [scheduleAll, regsToSlots]
  | cons r regs ih =>
    obtain ⟨cb, st⟩ := r
    rw [List.length_cons] at hK
    obtain ⟨m', rfl⟩ : ∃ m', m = m' + 1 := ⟨m - 1, by omega⟩
    have hinit : initTimers (m' + 1) = (⟨0, 0, true⟩ : TimerSlot) :: initTimers m' := rfl
    rw [hinit]
    have hcons : scheduleAll (busy ++ (⟨0, 0, true⟩ : TimerSlot) :: initTimers m')
        ((cb, st) :: regs) =
        match rtos_timer_reschedule (busy ++ (⟨0, 0, true⟩ : TimerSlot) :: initTimers m')
            cb st with
        | none => none
        | some t' => scheduleAll t' regs := rfl
    rw [hcons, reschedule_append busy ⟨0, 0, true⟩ (initTimers m') cb st hb rfl]
    show scheduleAll (busy ++ (⟨st, cb, false⟩ : TimerSlot) :: initTimers m') regs = _
    have hassoc : busy ++ (⟨st, cb, false⟩ : TimerSlot) :: initTimers m' =
        (busy ++ [⟨st, cb, false⟩]) ++ initTimers m' := by
      rw [List.append_assoc]
      rfl
    have hb' : ∀ s ∈ busy ++ [(⟨st, cb, false⟩ : TimerSlot)], s.is_free = false := by
      intro s hs
      rcases List.mem_append.mp hs with hs | hs
      · exact hb s hs
      · rw [List.mem_singleton.mp hs]
    have hih := ih (busy ++ [(⟨st, cb, false⟩ : TimerSlot)]) m' hb' (by omega)
    rw [hassoc, hih]
    simp [regsToSlots, Nat.succ_sub_succ]

theorem default_callback_spec (ts : List TimerSlot) (p : Nat) (hp : p < ts.length) :
    default_callback ts p = some (markFreeAt ts p, evAt ts p) := by
  obtain ⟨s, hs⟩ : ∃ s, ts[p]? = some s := by
    rw [List.getElem?_eq_getElem hp]
    exact ⟨_, rfl⟩
  have h1 : search_timer ts.length p = some p := by
    rw [search_timer_eq, if_pos hp]
  have h2 : default_callback ts p =
      match ts[p]? with
      | none => none
      | some s => some (modifyAt ts p (fun t => { t with is_free := true }),
                        s.callback, s.state) := by
    rw [default_callback, h1]
  rw [h2, hs, markFreeAt, evAt, hs]
  rfl

theorem evAt_markFreeAt (ts : List TimerSlot) (p q : Nat) :
    evAt (markFreeAt ts p) q = evAt ts q := by
  rw [evAt, evAt, markFreeAt, getElem?_modifyAt]
  by_cases h : p = q
  · rw [if_pos h]
    cases hq : ts[q]? with
    | none => rfl
    | some s => rfl
  · rw [if_neg h]

theorem fireAll_spec (order : List Nat) (ts : List TimerSlot)
    (h : ∀ p ∈ order, p < ts.length) :
    fireAll ts order = some (order.foldl markFreeAt ts, order.map (evAt ts)) := by
  induction order generalizing ts with
  | nil => rfl
  | cons p rest ih =>
    have hp : p < ts.length := h p (by simp)
    have hcons : fireAll ts (p :: rest) =
        match default_callback ts p with
        | none => none
        | some (t', ev) =>
          match fireAll t' rest with
          | none => none
          | some (t'', evs) => some (t'', ev :: evs) := rfl
    have h2 : fireAll ts (p :: rest) =
        match fireAll (markFreeAt ts p) rest with
        | none => none
        | some (t'', evs) => some (t'', evAt ts p :: evs) := by
      rw [hcons, default_callback_spec ts p hp]
    have hlen : (markFreeAt ts p).length = ts.length := length_modifyAt ts p _
    have h' : ∀ q ∈ rest, q < (markFreeAt ts p).length := by
      intro q hq
      rw [hlen]
      exact h q (by simp [hq])
    have hev : evAt (markFreeAt ts p) = evAt ts := by
      funext q
      exact evAt_markFreeAt ts p q
    rw [h2, ih (markFreeAt ts p) h', hev]
    rfl

theorem length_foldl_markFreeAt (order : List Nat) (ts : List TimerSlot) :
    (order.foldl markFreeAt ts).length = ts.length := by
  induction order generalizing ts with
  | nil => rfl
  | cons p rest ih =>
    show (rest.foldl markFreeAt (markFreeAt ts p)).length = ts.length
    rw [ih, markFreeAt, length_modifyAt]

theorem foldl_markFreeAt_preserves_free (order : List Nat) (ts : List TimerSlot)
    (i : Nat) (h : (ts[i]?).map TimerSlot.is_free = some true) :
    ((order.foldl markFreeAt ts)[i]?).map TimerSlot.is_free = some true := by
  induction order generalizing ts with
  | nil => exact h
  | cons p rest ih =>
    show ((rest.foldl markFreeAt (markFreeAt ts p))[i]?).map TimerSlot.is_free = some true
    apply ih
    rw [markFreeAt, getElem?_modifyAt]
    by_cases hpi : p = i
    · rw [if_pos hpi]
      cases hq : ts[i]? with
      | none => rw [hq] at h; simp at h
      | some s => simp
    · rw [if_neg hpi]
      exact h

theorem foldl_markFreeAt_mem_free (order : List Nat) (ts : List TimerSlot) (i : Nat)
    (hi : i ∈ order) (hlen : i < ts.length) :
    ((order.foldl markFreeAt ts)[i]?).map TimerSlot.is_free = some true := by
  induction order generalizing ts with
  | nil => simp at hi
  | cons p rest ih =>
    show ((rest.foldl markFreeAt (markFreeAt ts p))[i]?).map TimerSlot.is_free = some true
    rcases List.mem_cons.mp hi with rfl | hi'
    · apply foldl_markFreeAt_preserves_free
      obtain ⟨s, hs⟩ : ∃ s, ts[i]? = some s := by
        rw [List.getElem?_eq_getElem hlen]
        exact ⟨_, rfl⟩
      rw [markFreeAt, getElem?_modifyAt, if_pos rfl, hs]
      simp
    · exact ih (markFreeAt ts p) hi'
        (by rw [markFreeAt, length_modifyAt]; exact hlen)

theorem evAt_armed (regs : List (Nat × Nat)) (tail : List TimerSlot) (p : Nat)
    (hp : p < regs.length) :
    evAt (regsToSlots regs ++ tail) p = regs[p] := by
  have hlen : p < (regsToSlots regs).length := by
    rw [regsToSlots, List.length_map]
    exact hp
  rw [evAt, List.getElem?_append, if_pos hlen, regsToSlots, List.getElem?_map,
      List.getElem?_eq_getElem hp]
  rfl

theorem map_evAt_range (regs : List (Nat × Nat)) (tail : List TimerSlot) :
    (List.range regs.length).map (evAt (regsToSlots regs ++ tail)) = regs := by
  apply List.ext_getElem
  · simp
  · intro i h1 h2
    rw [List.getElem_map, List.getElem_range]
    exact evAt_armed regs tail i (by simpa using h2)

theorem countP_beq_eq_one {α : Type} [BEq α] [LawfulBEq α] (l : List α) (r : α)
    (hnd : l.Nodup) (hr : r ∈ l) : l.countP (fun x => x == r) = 1 := by
  induction l with
  | nil => simp at hr
  | cons x xs ih =>
    rw [List.countP_cons]
    obtain ⟨hx, hxs⟩ := List.nodup_cons.mp hnd
    rcases List.mem_cons.mp hr with rfl | hr'
    · have h0 : xs.countP (fun e => e == r) = 0 := by
        rw [List.countP_eq_zero]
        intro a ha
        have hne : a ≠ r := fun he => hx (he ▸ ha)
        simp [hne]
      simp [h0]
    · have hne : (x == r) = false := by
        have hxr : x ≠ r := fun he => hx (he ▸ hr')
        simp [hxr]
      rw [ih hxs hr', hne]
      simp

/-- C1: schedule `K ≤ N` timers with pairwise-distinct callbacks and
states into the fresh pool, then let the kernel fire the `K` armed
timers in an arbitrary order (`order` is a permutation of the armed
slot addresses `0..K-1`): every firing succeeds, the multiset of
dispatched `(callback, state)` events is exactly the multiset of
registrations — each registered callback is invoked exactly once, with
exactly the state captured at its schedule call — and afterwards all
`K` timer slots have `is_free = true`. -/
theorem timer_pool_exactly_once (N : Nat) (regs : List (Nat × Nat))
    (order : List Nat) (hK : regs.length ≤ N)
    (hdist : regs.Pairwise (fun a b => a.1 ≠ b.1 ∧ a.2 ≠ b.2))
    (hperm : order.Perm (List.range regs.length)) :
    ∃ armed fin evs,
      scheduleAll (initTimers N) regs = some armed ∧
      fireAll armed order = some (fin, evs) ∧
      evs.Perm regs ∧
      (∀ r ∈ regs, evs.count r = 1) ∧
      (∀ i, i < regs.length → (fin[i]?).map TimerSlot.is_free = some true) := by
  have hsched : scheduleAll (initTimers N) regs =
      some (regsToSlots regs ++ initTimers (N - regs.length)) := by
    have h := scheduleAll_spec regs [] N (by simp) hK
    simpa using h
  have hlenarmed : (regsToSlots regs ++ initTimers (N - regs.length)).length = N := by
    simp [regsToSlots, initTimers]
    omega
  have horder : ∀ p ∈ order, p < (regsToSlots regs ++ initTimers (N - regs.length)).length := by
    intro p hp
    have h1 : p ∈ List.range regs.length := hperm.mem_iff.mp hp
    have h2 : p < regs.length := List.mem_range.mp h1
    rw [hlenarmed]
    omega
  have hfire := fireAll_spec order (regsToSlots regs ++ initTimers (N - regs.length)) horder
  have hevs : (order.map (evAt (regsToSlots regs ++ initTimers (N - regs.length)))).Perm regs := by
    have h1 := hperm.map (evAt (regsToSlots regs ++ initTimers (N - regs.length)))
    rw [map_evAt_range regs (initTimers (N - regs.length))] at h1
    exact h1
  refine ⟨regsToSlots regs ++ initTimers (N - regs.length),
          order.foldl markFreeAt (regsToSlots regs ++ initTimers (N - regs.length)),
          order.map (evAt (regsToSlots regs ++ initTimers (N - regs.length))),
          hsched, hfire, hevs, ?_, ?_⟩
  · intro r hr
    have hnd : regs.Nodup := by
      apply List.Pairwise.imp ?_ hdist
      intro a b hab he
      exact hab.1 (by rw [he])
    show (order.map (evAt (regsToSlots regs ++ initTimers (N - regs.length)))).countP
      (fun x => x == r) = 1
    rw [hevs.countP_eq (fun x => x == r)]
    exact countP_beq_eq_one regs r hnd hr
  · intro i hi
    apply foldl_markFreeAt_mem_free
    · exact hperm.mem_iff.mpr (List.mem_range.mpr hi)
    · rw [hlenarmed]
      omega

theorem timer_pool_exactly_once_witness :
    ∃ armed fin evs,
      scheduleAll (initTimers 2) [(1, 10), (2, 20)] = some armed ∧
      fireAll armed [1, 0] = some (fin, evs) ∧
      evs.Perm [(1, 10), (2, 20)] ∧
      (∀ r ∈ [(1, 10), (2, 20)], evs.count r = 1) ∧
      (∀ i, i < [(1, 10), (2, 20)].length →
        (fin[i]?).map TimerSlot.is_free = some true) :=
  timer_pool_exactly_once 2 [(1, 10), (2, 20)] [1, 0] (by decide) (by decide)
    (by decide)
